import Mathlib

/-!
Shallow embedding of the etterna-graph analysis code
(`savegame_analysis/src/replays_analysis.rs` and `src/skill_development_calc.rs`).

Modelling conventions:
* `f32`/`f64` values are modelled as `ℚ` (the claims under scrutiny concern
  exact algorithmic structure, and every concrete input appearing in the
  claims is exactly representable);
* machine-integer counters are `ℕ`, signed ones `ℤ`, with the source's
  truncating division written explicitly;
* Rust panics (failed `expect`, integer division by zero, assertion failure)
  are modelled by `Option`, `none` being the panic; unsigned arithmetic that
  overflows only in debug builds (the parser's `u8` byte subtraction, the
  `u64` subtraction `num_values - 1`) is modelled with the shipped release
  build's wrapping semantics;
* the external transcendental kernels used by the skill-rating code
  (`libm::erfc` and `f64::powf` with base 2) are taken as function
  parameters of the model;
* byte strings are modelled as `List Char` of their ASCII characters.
-/

set_option maxHeartbeats 1000000

/-- `FastestComboInfo` struct from `replays_analysis.rs`. -/
structure FastestComboInfo where
  start_second : ℚ
  end_second : ℚ
  length : ℕ
  speed : ℚ
  deriving DecidableEq, Repr

/-- The `Default` instance used in the Rust code (`FastestComboInfo::default()`
and the explicit dummy initialisation in the search functions). -/
def FastestComboInfo.default : FastestComboInfo :=
  { start_second := 0, end_second := 0, length := 0, speed := 0 }

/-- Body of the inner loop of `find_fastest_note_subset`: compute the nps of the
window of `n+1` notes starting at `i` and keep it if it is at least as fast as
the best so far (the source's non-strict `>=` comparison). -/
def update_fastest (seconds : List ℚ) (fastest : FastestComboInfo) (n i : ℕ) :
    FastestComboInfo :=
  let nps : ℚ := (n : ℚ) / (seconds.getD (i + n) 0 - seconds.getD i 0)
  if nps ≥ fastest.speed then
    { start_second := seconds.getD i 0, end_second := seconds.getD (i + n) 0,
      length := n, speed := nps }
  else fastest

/-- One iteration of the outer loop of `find_fastest_note_subset`: slide the
window of `n+1` notes over all start positions `i ∈ 0..=(len - n - 1)`. -/
def subset_outer_step (seconds : List ℚ) (fastest : FastestComboInfo) (n : ℕ) :
    FastestComboInfo :=
  (List.range (seconds.length - n)).foldl (fun f i => update_fastest seconds f n i) fastest

/-- `find_fastest_note_subset` from `replays_analysis.rs` (lines 163-197).
Early-returns the dummy value when `seconds.len() <= min_num_notes`; otherwise
tries every window length `n` from `min_num_notes` up to
`min(seconds.len(), max_num_notes + 1) - 1`. -/
def find_fastest_note_subset (seconds : List ℚ) (min_num_notes max_num_notes : ℕ) :
    FastestComboInfo :=
  if seconds.length ≤ min_num_notes then FastestComboInfo.default
  else
    let end_n := Nat.min seconds.length (max_num_notes + 1)
    (List.range' min_num_notes (end_n - min_num_notes)).foldl
      (subset_outer_step seconds) FastestComboInfo.default

/-- Body of the inner loop of `find_fastest_note_subset_wife_pts`; the state is
the pair (best so far, running window sum of wife points).  The nps is
additionally scaled by `wife_pts_sum / n`, and the running sum is moved one
place forward (`-= wife_pts[i]; += wife_pts[end_i]`). -/
def update_fastest_wife (seconds wife_pts : List ℚ) (n i : ℕ)
    (p : FastestComboInfo × ℚ) : FastestComboInfo × ℚ :=
  let nps0 : ℚ := (n : ℚ) / (seconds.getD (i + n) 0 - seconds.getD i 0)
  let nps : ℚ := nps0 * (p.2 / (n : ℚ))
  let f :=
    if nps ≥ p.1.speed then
      { start_second := seconds.getD i 0, end_second := seconds.getD (i + n) 0,
        length := n, speed := nps }
    else p.1
  (f, p.2 - wife_pts.getD i 0 + wife_pts.getD (i + n) 0)

/-- One iteration of the outer loop of `find_fastest_note_subset_wife_pts`:
run the inner loop starting from the carried initial window sum
`wife_pts_sum_start`, then advance that sum by `wife_pts[n]`. -/
def wife_outer_step (seconds wife_pts : List ℚ) (st : FastestComboInfo × ℚ) (n : ℕ) :
    FastestComboInfo × ℚ :=
  let inner := (List.range (seconds.length - n)).foldl
    (fun p i => update_fastest_wife seconds wife_pts n i p) st
  (inner.1, st.2 + wife_pts.getD n 0)

/-- `find_fastest_note_subset_wife_pts` from `replays_analysis.rs`
(lines 201-253).  The initial window sum is `wife_pts[0..min_num_notes].sum()`. -/
def find_fastest_note_subset_wife_pts (seconds : List ℚ)
    (min_num_notes max_num_notes : ℕ) (wife_pts : List ℚ) : FastestComboInfo :=
  if seconds.length ≤ min_num_notes then FastestComboInfo.default
  else
    let end_n := Nat.min seconds.length (max_num_notes + 1)
    ((List.range' min_num_notes (end_n - min_num_notes)).foldl
      (wife_outer_step seconds wife_pts)
      (FastestComboInfo.default, (wife_pts.take min_num_notes).sum)).1

/-- The list of (window length, start index) pairs examined by
`find_fastest_note_subset`, in iteration order. -/
def subset_candidates (seconds : List ℚ) (min_num_notes max_num_notes : ℕ) :
    List (ℕ × ℕ) :=
  if seconds.length ≤ min_num_notes then []
  else
    (List.range' min_num_notes
        (Nat.min seconds.length (max_num_notes + 1) - min_num_notes)).flatMap
      (fun n => (List.range (seconds.length - n)).map (fun i => (n, i)))

/-- The rate `n / (seconds[i+n] - seconds[i])` of the candidate window `(n, i)`. -/
def subset_rate (seconds : List ℚ) (p : ℕ × ℕ) : ℚ :=
  (p.1 : ℚ) / (seconds.getD (p.2 + p.1) 0 - seconds.getD p.2 0)

/-- Rust `f32::round`: rounds half-way cases away from zero. -/
def rust_round (x : ℚ) : ℤ :=
  if 0 ≤ x then ⌊x + 1 / 2⌋ else -⌊-x + 1 / 2⌋

/-- Body of the deviation loop of `put_deviations_into_buckets`: scale the
deviation to milliseconds, round, offset by `OFFSET_BUCKET_RANGE = 180`, and
increment the corresponding bucket when the index is within bounds. -/
def bucket_step (offset_buckets : List ℕ) (d : ℚ) : List ℕ :=
  let bucket_index : ℤ := rust_round (d * 1000) + 180
  if 0 ≤ bucket_index ∧ bucket_index < (offset_buckets.length : ℤ) then
    offset_buckets.set bucket_index.toNat
      (offset_buckets.getD bucket_index.toNat 0 + 1)
  else offset_buckets

/-- `put_deviations_into_buckets` from `replays_analysis.rs` (lines 314-327):
`NUM_OFFSET_BUCKETS = 2 * 180 + 1 = 361` buckets. -/
def put_deviations_into_buckets (deviations : List ℚ) : List ℕ :=
  deviations.foldl bucket_step (List.replicate 361 0)

/-- The manipulated-pair count from `analyze` (`replays_analysis.rs` line 403):
`unsorted_ticks.windows(2).filter(|w| w[0] > w[1]).count()`. -/
def num_manipped_notes (unsorted_ticks : List ℕ) : ℕ :=
  ((unsorted_ticks.zip unsorted_ticks.tail).filter (fun p => p.2 < p.1)).length

/-- The manipulation ratio from `analyze` (`replays_analysis.rs` line 404):
the manipulated-pair count divided by the total note count. -/
def score_manipulation (unsorted_ticks : List ℕ) : ℚ :=
  (num_manipped_notes unsorted_ticks : ℚ) / (unsorted_ticks.length : ℚ)

/-- `calculate_standard_deviation` from `replays_analysis.rs` (lines 482-530),
up to the final `sqrt`: returns the mean of squared differences
(`squared_differences_mean`), of which the code takes the square root.
`none` models a panic: the length assertion failing, or the integer division
by zero in the mean when the histogram holds exactly one value (`i64`
division by zero panics in every build mode).  On an empty histogram the
unsigned `num_values - 1` wraps in the shipped (release) build: reinterpreted
`as i64` the wrapped `2^64 - 1` is `-1`, and converted `as f32` it rounds to
`2^64`; both wrapped values are modelled explicitly, matching the wrapping
semantics used for the parser's `u8` byte subtraction.  The mean is the
source's truncating `i64` division. -/
def calculate_standard_deviation_sq (offset_buckets : List ℕ)
    (offset_bucket_range : ℕ) : Option ℚ :=
  if offset_buckets.length ≠ 2 * offset_bucket_range + 1 then none
  else
    let values_sum : ℤ :=
      (offset_buckets.enum.map (fun p => ((p.1 : ℤ) - offset_bucket_range) * p.2)).sum
    let num_values : ℕ := offset_buckets.sum
    let num_values_minus_one_i64 : ℤ :=
      if num_values = 0 then -1 else (num_values : ℤ) - 1
    if num_values_minus_one_i64 = 0 then none
    else
      let mean : ℤ := Int.tdiv values_sum num_values_minus_one_i64
      let squared_differences_sum : ℤ :=
        (offset_buckets.enum.map
          (fun p => (p.2 : ℤ) * ((p.1 : ℤ) - offset_bucket_range - mean) ^ 2)).sum
      let num_values_minus_one_f32 : ℚ :=
        if num_values = 0 then 2 ^ 64 else (num_values : ℚ) - 1
      some ((squared_differences_sum : ℚ) / num_values_minus_one_f32)

/-- The standard-deviation computation as the spec's formulas read, again up to
the final `sqrt`: weighted mean `Σ(value·count)/(N-1)` taken as an exact
rational division, variance `Σ(count·(value-mean)²)/(N-1)`. -/
def standardDeviation_spec_sq (offset_buckets : List ℕ)
    (offset_bucket_range : ℕ) : ℚ :=
  let values_sum : ℚ :=
    (offset_buckets.enum.map (fun p => ((p.1 : ℚ) - offset_bucket_range) * p.2)).sum
  let num_values : ℚ := (offset_buckets.sum : ℕ)
  let mean : ℚ := values_sum / (num_values - 1)
  ((offset_buckets.enum.map
    (fun p => (p.2 : ℚ) * ((p.1 : ℚ) - offset_bucket_range - mean) ^ 2)).sum) /
    (num_values - 1)

/-- Modelled from the spec: `util::split_newlines` lives in a module that is
not among the analysed sources; the spec (§6) describes replay files as
plain-text, newline-delimited records, so the byte string is split at every
newline character. -/
def split_newlines (bytes : List Char) : List (List Char) :=
  bytes.splitOn '\n'

/-- The external `btoi::btou` decimal parser used for the tick field: succeeds
exactly on non-empty all-digit strings. -/
def btou (s : List Char) : Option ℕ :=
  if s ≠ [] ∧ s.all (fun c => c.isDigit) then
    some (s.foldl (fun n c => 10 * n + (c.toNat - 48)) 0)
  else none

/-- Helper for `parse_sm_float`: parse an unsigned fixed-point decimal numeral
`digits(.digits)?`. -/
def parse_sm_float_unsigned (s : List Char) : Option ℚ :=
  let intPart := s.takeWhile (fun c => c ≠ '.')
  match s.dropWhile (fun c => c ≠ '.') with
  | [] => (btou intPart).map (fun n => (n : ℚ))
  | _ :: frac =>
    match btou intPart, btou frac with
    | some ip, some fp => some ((ip : ℚ) + (fp : ℚ) / (10 : ℚ) ^ frac.length)
    | _, _ => none

/-- Modelled from the spec: `parse_sm_float` delegates to the external
`lexical_core` float parser, whose source is not part of this repository; the
spec (§6, §8) describes deviation strings as fixed-point decimal numerals with
an optional leading sign, so this parses exactly `-?digits(.digits)?`. -/
def parse_sm_float (s : List Char) : Option ℚ :=
  match s with
  | '-' :: rest => (parse_sm_float_unsigned rest).map (fun q => -q)
  | _ => parse_sm_float_unsigned s

/-- `str::splitn(2, ' ')`-style split: the piece before the first space, and
(when a space exists) the rest after it.  Iterating this yields the behaviour
of the source's `line.splitn(3, |&c| c == b' ')` token iterator. -/
def breakSpace : List Char → List Char × Option (List Char)
  | [] => ([], none)
  | c :: rest =>
    if c = ' ' then ([], some rest)
    else
      let p := breakSpace rest
      (c :: p.1, p.2)

/-- Outcome of processing one replay-file line in `parse_replay_file`. -/
inductive LineResult where
  | panic
  | skip
  | holdDrop
  | mineHit
  | ignored
  | note (tick : ℕ) (deviation : ℚ) (column : ℕ)
  deriving DecidableEq, Repr

/-- One iteration of the line loop of `parse_replay_file`
(`replays_analysis.rs` lines 338-370).  `panic` models the source's
`.expect("Missing tick token")` on a missing second or third token and the
`remainder[0]` indexing of an empty remainder; `skip` models the
`ok_or_continue!`/`some_or_continue!` paths (and the empty-line `continue`);
byte-minus-`b'0'` wraps like `u8` subtraction. -/
def parse_line (line : List Char) : LineResult :=
  match line with
  | [] => .skip
  | c :: _ =>
    if c = 'H' then .holdDrop
    else
      let t1 := breakSpace line
      match btou t1.1 with
      | none => .skip
      | some tick =>
        match t1.2 with
        | none => .panic
        | some rest1 =>
          let t2 := breakSpace rest1
          match parse_sm_float t2.1 with
          | none => .skip
          | some deviation =>
            match t2.2 with
            | none => .panic
            | some remainder =>
              match remainder with
              | [] => .panic
              | c0 :: _ =>
                let column := (c0.toNat + 256 - 48) % 256
                let note_type :=
                  if 3 ≤ remainder.length then
                    ((remainder.getD 2 ' ').toNat + 256 - 48) % 256
                  else 1
                if note_type = 1 ∨ note_type = 2 then .note tick deviation column
                else if note_type = 4 then .mineHit
                else .ignored

/-- `ReplayFileData` struct from `replays_analysis.rs`. -/
structure ReplayFileData where
  ticks : List ℕ
  deviations : List ℚ
  columns : List ℕ
  num_mine_hits : ℕ
  num_hold_drops : ℕ
  deriving DecidableEq, Repr

/-- The line loop of `parse_replay_file`, over the already-split lines.
`none` models a panic aborting the whole parse. -/
def parse_lines : List (List Char) → Option ReplayFileData
  | [] => some { ticks := [], deviations := [], columns := [],
                 num_mine_hits := 0, num_hold_drops := 0 }
  | line :: rest =>
    match parse_line line with
    | .panic => none
    | .skip => parse_lines rest
    | .ignored => parse_lines rest
    | .holdDrop =>
      (parse_lines rest).map (fun d => { d with num_hold_drops := d.num_hold_drops + 1 })
    | .mineHit =>
      (parse_lines rest).map (fun d => { d with num_mine_hits := d.num_mine_hits + 1 })
    | .note tick deviation column =>
      (parse_lines rest).map (fun d =>
        { d with ticks := tick :: d.ticks, deviations := deviation :: d.deviations,
                 columns := column :: d.columns })

/-- `parse_replay_file` from `replays_analysis.rs` (lines 329-373), given the
bytes the file read produced (the `std::fs::read` failure, the only
`None`-return of the source, is outside the model). -/
def parse_replay_file (bytes : List Char) : Option ReplayFileData :=
  parse_lines (split_newlines bytes)

/-- The per-candidate power-level sum from `aggregate_skill`
(`skill_development_calc.rs` lines 85-90):
`Σ_v max(0, 2/erfc(delta_multiplier·(v - rating)) - 2)`.
`erfc_fn` is the external `libm::erfc`. -/
def power_sum (erfc_fn : ℚ → ℚ) (delta_multiplier : ℚ) (v : List ℚ) (rating : ℚ) : ℚ :=
  (v.map fun vv => max 0 (2 / erfc_fn (delta_multiplier * (vv - rating)) - 2)).sum

/-- The inner `loop` of `aggregate_skill`: repeatedly `rating += resolution`
until `2^(rating·0.1) >= sum(rating)` (a non-strict bound on the sum).
`pow2` is the external `2f64.powf`; `fuel` bounds the iteration count (the
source loops unboundedly). -/
def climb (pow2 sum_fn : ℚ → ℚ) : ℕ → ℚ → ℚ → ℚ
  | 0, rating, resolution => rating + resolution
  | fuel + 1, rating, resolution =>
    let r := rating + resolution
    if sum_fn r ≤ pow2 (r * (1 / 10)) then r
    else climb pow2 sum_fn fuel r resolution

/-- `aggregate_skill` from `skill_development_calc.rs` (lines 66-103) with the
`rating`/`resolution` arguments at their `None` defaults `0.0` and `10.24`:
12 rounds of climb-then-back-off-and-halve, then `rating += resolution * 2`,
then the final multiplier. -/
def aggregate_skill (pow2 erfc_fn : ℚ → ℚ) (v : List ℚ)
    (delta_multiplier result_multiplier : ℚ) (fuel : ℕ) : ℚ :=
  let s := power_sum erfc_fn delta_multiplier v
  let p := (List.range 12).foldl
    (fun st _ => (climb pow2 s fuel st.1 st.2 - st.2, st.2 / 2)) ((0 : ℚ), 256 / 25)
  (p.1 + p.2 * 2) * result_multiplier

/-- The climb as the spec words it: keep stepping while the inequality
`Σ < 2^(rating·0.1)` is violated, i.e. stop at the first step where the sum is
strictly below the threshold. -/
def climb_spec (pow2 sum_fn : ℚ → ℚ) : ℕ → ℚ → ℚ → ℚ
  | 0, rating, resolution => rating + resolution
  | fuel + 1, rating, resolution =>
    let r := rating + resolution
    if sum_fn r < pow2 (r * (1 / 10)) then r
    else climb_spec pow2 sum_fn fuel r resolution

/-- The skill-rating aggregation as the spec describes it: the same
coarse-to-fine schedule (start at resolution 10.24, about 12 halving rounds,
finally two resolution-steps up, then the result multiplier) with the
strict-inequality "okay" test. -/
def calc_rating_spec (pow2 erfc_fn : ℚ → ℚ) (v : List ℚ)
    (delta_multiplier result_multiplier : ℚ) (fuel : ℕ) : ℚ :=
  let s := power_sum erfc_fn delta_multiplier v
  let p := (List.range 12).foldl
    (fun st _ => (climb_spec pow2 s fuel st.1 st.2 - st.2, st.2 / 2)) ((0 : ℚ), 256 / 25)
  (p.1 + p.2 * 2) * result_multiplier

/-- Constant-1 function, standing in for `2f64.powf` in concrete witnesses. -/
def qconst1 : ℚ → ℚ := fun _ => 1

/-- Constant-2 function, standing in for `libm::erfc` in concrete witnesses. -/
def qconst2 : ℚ → ℚ := fun _ => 2

/-- The per-score analysis record (`ScoreAnalysis` plus its optional
`TimingInfoDependantAnalysis`) as consumed by the batch reduction loop of
`ReplaysAnalysis::create`. -/
structure TimingInfoDependantAnalysis where
  fastest_combo : FastestComboInfo
  fastest_jack : FastestComboInfo
  fastest_acc : FastestComboInfo
  new_wifescore : ℚ
  deriving DecidableEq, Repr

/-- `ScoreAnalysis` struct from `replays_analysis.rs`. -/
structure ScoreAnalysis where
  manipulation : ℚ
  deviation_mean : ℚ
  num_deviation_notes : ℕ
  notes_per_column : List ℕ
  cbs_per_column : List ℕ
  longest_mcombo : ℕ
  offset_buckets : List ℕ
  wife2_wifescore : ℚ
  timing_info_dependant_analysis : Option TimingInfoDependantAnalysis
  deriving DecidableEq, Repr

/-- `ReplaysAnalysis` struct from `replays_analysis.rs`; the
`standard_deviation` field is stored before its final `sqrt` (and as `none`
when `calculate_standard_deviation` panics). -/
structure ReplaysAnalysis where
  score_indices : List ℕ
  manipulations : List ℚ
  deviation_mean : ℚ
  notes_per_column : List ℕ
  cbs_per_column : List ℕ
  longest_mcombo : ℕ × String
  offset_buckets : List ℕ
  sub_93_offset_buckets : List ℕ
  standard_deviation_sq : Option ℚ
  fastest_combo : FastestComboInfo
  fastest_combo_scorekey : String
  fastest_jack : FastestComboInfo
  fastest_jack_scorekey : String
  fastest_acc : FastestComboInfo
  fastest_acc_scorekey : String
  wife2_wifescores : List ℚ
  timing_info_dependant_score_indices : List ℕ
  current_wifescores : List ℚ
  new_wifescores : List ℚ
  deriving DecidableEq, Repr

/-- The `Default::default()` value of `ReplaysAnalysis`. -/
def ReplaysAnalysis.empty : ReplaysAnalysis :=
  { score_indices := [], manipulations := [], deviation_mean := 0,
    notes_per_column := [0, 0, 0, 0], cbs_per_column := [0, 0, 0, 0],
    longest_mcombo := (0, ""), offset_buckets := [], sub_93_offset_buckets := [],
    standard_deviation_sq := none,
    fastest_combo := FastestComboInfo.default, fastest_combo_scorekey := "",
    fastest_jack := FastestComboInfo.default, fastest_jack_scorekey := "",
    fastest_acc := FastestComboInfo.default, fastest_acc_scorekey := "",
    wife2_wifescores := [], timing_info_dependant_score_indices := [],
    current_wifescores := [], new_wifescores := [] }

/-- Element-wise bucket accumulation: the `izip!`-driven `*analysis_bucket +=
score_bucket` loops only walk the common prefix, leaving any tail of the
accumulator unchanged. -/
def add_buckets (a b : List ℕ) : List ℕ :=
  (a.zipWith (· + ·) b) ++ a.drop b.length

/-- The mutable state of the reduction loop in `ReplaysAnalysis::create`:
the analysis being built plus `deviation_mean_sum`, `longest_mcombo` and
`longest_mcombo_scorekey`. -/
structure ReduceState where
  analysis : ReplaysAnalysis
  deviation_mean_sum : ℚ
  longest_mcombo : ℕ
  longest_mcombo_scorekey : String
  deriving DecidableEq, Repr

/-- One iteration of the reduction loop of `ReplaysAnalysis::create`
(`replays_analysis.rs` lines 583-631).  The element is the (original index,
per-score analysis outcome) pair; a `none` outcome is the
`some_or_continue!`-skipped soft failure. -/
def reduce_step (st : ReduceState) (p : ℕ × Option (String × ScoreAnalysis × ℚ)) :
    ReduceState :=
  match p.2 with
  | none => st
  | some (scorekey, score, wifescore) =>
    let a0 := st.analysis
    let a1 := { a0 with
      score_indices := a0.score_indices ++ [p.1],
      manipulations := a0.manipulations ++ [score.manipulation],
      wife2_wifescores := a0.wife2_wifescores ++ [score.wife2_wifescore],
      cbs_per_column := add_buckets a0.cbs_per_column score.cbs_per_column,
      notes_per_column := add_buckets a0.notes_per_column score.notes_per_column,
      offset_buckets := add_buckets a0.offset_buckets score.offset_buckets,
      sub_93_offset_buckets :=
        if wifescore < 93 / 100 then
          add_buckets a0.sub_93_offset_buckets score.offset_buckets
        else a0.sub_93_offset_buckets }
    let st1 := { st with
      analysis := a1,
      deviation_mean_sum := st.deviation_mean_sum + score.deviation_mean }
    let st2 :=
      if st1.longest_mcombo < score.longest_mcombo then
        { st1 with longest_mcombo := score.longest_mcombo,
                   longest_mcombo_scorekey := scorekey }
      else st1
    match score.timing_info_dependant_analysis with
    | none => st2
    | some tia =>
      let a2 := st2.analysis
      let a3 := { a2 with
        timing_info_dependant_score_indices :=
          a2.timing_info_dependant_score_indices ++ [p.1],
        current_wifescores := a2.current_wifescores ++ [wifescore],
        new_wifescores := a2.new_wifescores ++ [tia.new_wifescore] }
      let a4 :=
        if a3.fastest_combo.speed < tia.fastest_combo.speed then
          { a3 with fastest_combo := tia.fastest_combo,
                    fastest_combo_scorekey := scorekey }
        else a3
      let a5 :=
        if a4.fastest_acc.speed < tia.fastest_acc.speed then
          { a4 with fastest_acc := tia.fastest_acc, fastest_acc_scorekey := scorekey }
        else a4
      let a6 :=
        if a5.fastest_jack.speed < tia.fastest_jack.speed then
          { a5 with fastest_jack := tia.fastest_jack, fastest_jack_scorekey := scorekey }
        else a5
      { st2 with analysis := a6 }

/-- `ReplaysAnalysis::create` from `replays_analysis.rs` (lines 535-645),
starting from the per-score analysis outcomes (the `score_analyses` vector:
one entry per input index, `none` for an analysis soft failure; the file I/O,
rayon fan-out and timing-info lookup that produce it are external).  After the
reduction loop the mean of deviation means, the longest-marvelous pair and the
standard deviation of the combined histogram are filled in. -/
def ReplaysAnalysis.create (score_analyses : List (Option (String × ScoreAnalysis × ℚ))) :
    ReplaysAnalysis :=
  let init : ReplaysAnalysis :=
    { ReplaysAnalysis.empty with
      offset_buckets := List.replicate 361 0,
      sub_93_offset_buckets := List.replicate 361 0 }
  let st0 : ReduceState :=
    { analysis := init, deviation_mean_sum := 0, longest_mcombo := 0,
      longest_mcombo_scorekey := "<no chart>" }
  let st := score_analyses.enum.foldl reduce_step st0
  let num_scores := st.analysis.manipulations.length
  { st.analysis with
    deviation_mean := st.deviation_mean_sum / (num_scores : ℚ),
    longest_mcombo := (st.longest_mcombo, st.longest_mcombo_scorekey),
    standard_deviation_sq :=
      calculate_standard_deviation_sq st.analysis.offset_buckets 180 }

/-- Whether a per-score outcome is a success whose longest marvelous combo is
zero (trivially true for skipped scores). -/
def entry_mcombo_zero : Option (String × ScoreAnalysis × ℚ) → Bool
  | none => true
  | some e => e.2.1.longest_mcombo == 0

/-- Shape of a replay-file line that cannot hit any of the panicking paths of
the line loop: empty, a hold-drop marker, or carrying at least three
space-separated fields with a non-empty remainder. -/
def line_well_formed (line : List Char) : Prop :=
  line = [] ∨ line.head? = some 'H' ∨
    ∃ r1 r2, (breakSpace line).2 = some r1 ∧ (breakSpace r1).2 = some r2 ∧ r2 ≠ []

/-- A concrete per-score analysis used by witnesses. -/
def sample_score : ScoreAnalysis :=
  { manipulation := 0, deviation_mean := 0, num_deviation_notes := 0,
    notes_per_column := [1, 0, 0, 0], cbs_per_column := [0, 0, 0, 0],
    longest_mcombo := 0, offset_buckets := List.replicate 361 0,
    wife2_wifescore := 1, timing_info_dependant_analysis := none }

/-! ## Theorems -/

/-- Core fact about one update step: the best-so-far speed after examining a
candidate window is the maximum of the previous best and the window's rate. -/
theorem update_fastest_speed (seconds : List ℚ) (f : FastestComboInfo) (n i : ℕ) :
    (update_fastest seconds f n i).speed = max f.speed (subset_rate seconds (n, i)) := by
  unfold update_fastest subset_rate
  dsimp only
  split
  · next h => exact (max_eq_right h).symm
  · next h => exact (max_eq_left (le_of_lt (lt_of_not_ge h))).symm

theorem fold_update_speed (seconds : List ℚ) :
    ∀ (ps : List (ℕ × ℕ)) (f : FastestComboInfo),
      (ps.foldl (fun g p => update_fastest seconds g p.1 p.2) f).speed =
        ps.foldl (fun s p => max s (subset_rate seconds p)) f.speed := by
  intro ps
  induction ps with
  | nil => intro f; rfl
  | cons p ps ih =>
    intro f
    simp only [List.foldl_cons]
    rw [ih, update_fastest_speed]

theorem foldl_flatMap_eq {α β γ : Type} (f : γ → β → γ) (g : α → List β) :
    ∀ (l : List α) (init : γ),
      (l.flatMap g).foldl f init = l.foldl (fun acc a => (g a).foldl f acc) init := by
  intro l
  induction l with
  | nil => intro init; rfl
  | cons a l ih => intro init; simp [List.foldl_append, ih]

/-- `find_fastest_note_subset` is the left fold of the update step over the
candidate list. -/
theorem find_eq_fold_candidates (seconds : List ℚ) (mi ma : ℕ) :
    find_fastest_note_subset seconds mi ma =
      (subset_candidates seconds mi ma).foldl
        (fun g p => update_fastest seconds g p.1 p.2) FastestComboInfo.default := by
  unfold find_fastest_note_subset subset_candidates
  split
  · rfl
  · rw [foldl_flatMap_eq]
    apply List.foldl_ext
    intro acc n _
    rw [List.foldl_map]
    rfl


/-- Claim C1: for every sorted seconds sequence and inclusive bounds,
`find_fastest_note_subset` examines, for each candidate length `n` from `min`
up to `min(max, length-1)`, every window of exactly `n+1` consecutive notes at
rate `n / (seconds[end] - seconds[start])` and keeps the best-so-far under a
non-strict `>=` comparison (so its final speed is the maximum candidate rate);
in particular for `seconds = [0,0,1,2,3,4,4]`, `min = 5`, `max = 6` the result
is the 6-note window with speed 3/2, and with `max = 5` the 5-note window with
speed 5/4. -/
theorem C1_find_fastest_note_subset :
    (find_fastest_note_subset [0, 0, 1, 2, 3, 4, 4] 5 6 =
      { start_second := 0, end_second := 4, length := 6, speed := 3 / 2 }) ∧
    (find_fastest_note_subset [0, 0, 1, 2, 3, 4, 4] 5 5 =
      { start_second := 0, end_second := 4, length := 5, speed := 5 / 4 }) ∧
    ∀ (seconds : List ℚ) (min_num_notes max_num_notes : ℕ),
      List.Chain' (· ≤ ·) seconds →
      (∀ p ∈ subset_candidates seconds min_num_notes max_num_notes,
        seconds.getD p.2 0 < seconds.getD (p.2 + p.1) 0) →
      (find_fastest_note_subset seconds min_num_notes max_num_notes).speed =
        ((subset_candidates seconds min_num_notes max_num_notes).map
          (subset_rate seconds)).foldl max 0 := by
  refine ⟨?_, ?_, ?_⟩
  · norm_num [find_fastest_note_subset, subset_outer_step, update_fastest,
      FastestComboInfo.default,
      show List.range' 5 2 = [5, 6] from rfl, show List.range 2 = [0, 1] from rfl,
      show List.range 1 = [0] from rfl]
  · norm_num [find_fastest_note_subset, subset_outer_step, update_fastest,
      FastestComboInfo.default,
      show List.range' 5 1 = [5] from rfl, show List.range 2 = [0, 1] from rfl]
  · intro seconds min_num_notes max_num_notes _hsorted _hpos
    rw [find_eq_fold_candidates, fold_update_speed, List.foldl_map]
    rfl

/-- Witness for the universally quantified part of C1, at the concrete inputs
of the claim. -/
theorem C1_find_fastest_note_subset_witness :
    (find_fastest_note_subset [0, 0, 1, 2, 3, 4, 4] 5 6).speed =
      ((subset_candidates [0, 0, 1, 2, 3, 4, 4] 5 6).map
        (subset_rate [0, 0, 1, 2, 3, 4, 4])).foldl max 0 :=
  C1_find_fastest_note_subset.2.2 [0, 0, 1, 2, 3, 4, 4] 5 6
    (by norm_num)
    (by
      intro p hp
      rw [show subset_candidates [0, 0, 1, 2, 3, 4, 4] 5 6 = [(5, 0), (5, 1), (6, 0)]
        from rfl] at hp
      simp only [List.mem_cons, List.not_mem_nil, or_false] at hp
      rcases hp with h | h | h <;> subst h <;> norm_num)

theorem getD_one_of_all_one {l : List ℚ} (h1 : ∀ w ∈ l, w = 1) {j : ℕ}
    (hj : j < l.length) : l.getD j 0 = 1 := by
  rw [List.getD_eq_getElem l 0 hj]
  exact h1 _ (List.getElem_mem hj)

theorem sum_of_all_one {l : List ℚ} (h1 : ∀ w ∈ l, w = 1) :
    l.sum = (l.length : ℚ) := by
  induction l with
  | nil => simp
  | cons a l ih =>
    have ha : a = 1 := h1 a (List.mem_cons_self a l)
    have hrest : ∀ w ∈ l, w = (1 : ℚ) := fun w hw => h1 w (List.mem_cons_of_mem a hw)
    simp [ha, ih hrest]
    ring

theorem wife_inner_one (seconds wife_pts : List ℚ)
    (hlen : wife_pts.length = seconds.length) (h1 : ∀ w ∈ wife_pts, w = 1) (n : ℕ) :
    ∀ (is : List ℕ) (f : FastestComboInfo), (∀ i ∈ is, i + n < seconds.length) →
      is.foldl (fun p i => update_fastest_wife seconds wife_pts n i p) (f, (n : ℚ)) =
        (is.foldl (fun g i => update_fastest seconds g n i) f, (n : ℚ)) := by
  intro is
  induction is with
  | nil => intro f _; rfl
  | cons i is ih =>
    intro f hbound
    have hin : i + n < seconds.length := hbound i (List.mem_cons_self i is)
    have hgi : wife_pts.getD i 0 = 1 := getD_one_of_all_one h1 (by omega)
    have hgin : wife_pts.getD (i + n) 0 = 1 := getD_one_of_all_one h1 (by omega)
    simp only [List.getD, List.get?_eq_getElem?] at hgi hgin
    have hstep : update_fastest_wife seconds wife_pts n i (f, (n : ℚ)) =
        (update_fastest seconds f n i, (n : ℚ)) := by
      unfold update_fastest_wife update_fastest
      rcases Nat.eq_zero_or_pos n with hn | hn
      · subst hn
        simp [List.getD, hgi, hgin]
      · have hne : ((n : ℚ)) ≠ 0 := by
          exact_mod_cast Nat.pos_iff_ne_zero.mp hn
        simp [List.getD, hgi, hgin, div_self hne]
    simp only [List.foldl_cons, hstep]
    exact ih _ (fun j hj => hbound j (List.mem_cons_of_mem i hj))

theorem wife_outer_one (seconds wife_pts : List ℚ)
    (hlen : wife_pts.length = seconds.length) (h1 : ∀ w ∈ wife_pts, w = 1) :
    ∀ (k m : ℕ) (f : FastestComboInfo), m + k ≤ seconds.length →
      (List.range' m k).foldl (wife_outer_step seconds wife_pts) (f, (m : ℚ)) =
        ((List.range' m k).foldl (subset_outer_step seconds) f, ((m + k : ℕ) : ℚ)) := by
  intro k
  induction k with
  | zero => intro m f _; simp [List.range']
  | succ k ih =>
    intro m f hmk
    rw [show List.range' m (k + 1) = m :: List.range' (m + 1) k from List.range'_succ m k 1]
    simp only [List.foldl_cons]
    have hstep : wife_outer_step seconds wife_pts (f, (m : ℚ)) m =
        (subset_outer_step seconds f m, (((m + 1 : ℕ)) : ℚ)) := by
      unfold wife_outer_step subset_outer_step
      rw [wife_inner_one seconds wife_pts hlen h1 m _ f
        (fun i hi => by have := List.mem_range.mp hi; omega)]
      have hm : wife_pts.getD m 0 = 1 := getD_one_of_all_one h1 (by omega)
      simp only [List.getD, List.get?_eq_getElem?] at hm
      simp [List.getD, hm]
    rw [hstep, ih (m + 1) _ (by omega)]
    congr 2
    omega

/-- Claim C2: for every seconds sequence and window-length bounds, the speed of
the unweighted search equals the speed of the weighted search when the weights
sequence has the same length as `seconds` and every weight is 1. -/
theorem C2_wife_pts_all_one_agreement (seconds wife_pts : List ℚ)
    (min_num_notes max_num_notes : ℕ)
    (hlen : wife_pts.length = seconds.length) (h1 : ∀ w ∈ wife_pts, w = 1) :
    (find_fastest_note_subset_wife_pts seconds min_num_notes max_num_notes wife_pts).speed =
      (find_fastest_note_subset seconds min_num_notes max_num_notes).speed := by
  unfold find_fastest_note_subset_wife_pts find_fastest_note_subset
  split
  · rfl
  · next hgt =>
    have hlt : min_num_notes < seconds.length := by omega
    have hsum : (wife_pts.take min_num_notes).sum = ((min_num_notes : ℕ) : ℚ) := by
      rw [sum_of_all_one (fun w hw => h1 w (List.mem_of_mem_take hw)), List.length_take]
      congr 1
      omega
    have hminle : Nat.min seconds.length (max_num_notes + 1) ≤ seconds.length :=
      Nat.min_le_left _ _
    simp only [hsum]
    rw [wife_outer_one seconds wife_pts hlen h1
      (Nat.min seconds.length (max_num_notes + 1) - min_num_notes) min_num_notes
      FastestComboInfo.default (by omega)]

/-- Witness for C2 at the concrete inputs of the spec's test vector. -/
theorem C2_wife_pts_all_one_agreement_witness :
    (find_fastest_note_subset_wife_pts [0, 3, 5, 6, 8] 2 99 [1, 1, 1, 1, 1]).speed =
      (find_fastest_note_subset [0, 3, 5, 6, 8] 2 99).speed :=
  C2_wife_pts_all_one_agreement [0, 3, 5, 6, 8] [1, 1, 1, 1, 1] 2 99 rfl (by
    intro w hw
    simp only [List.mem_cons, List.not_mem_nil, or_false] at hw
    rcases hw with h | h | h | h | h <;> exact h)

/-- The candidate ratings visited by a climb starting at `rating` with step
`resolution`: the `k`-th candidate is `rating + (k+1)·resolution`. -/
def climb_candidate (rating resolution : ℚ) (k : ℕ) : ℚ :=
  rating + ((k : ℚ) + 1) * resolution

/-- The strict "okay" test of the spec (and of the source's
`is_rating_okay`): the power sum at `r` is strictly below `2^(r·0.1)`. -/
def rating_okay (pow2 sum_fn : ℚ → ℚ) (r : ℚ) : Prop :=
  sum_fn r < pow2 (r * (1 / 10))

theorem climb_candidate_zero (rating resolution : ℚ) :
    climb_candidate rating resolution 0 = rating + resolution := by
  unfold climb_candidate
  push_cast
  ring

theorem climb_candidate_succ (rating resolution : ℚ) (k : ℕ) :
    climb_candidate rating resolution (k + 1) =
      climb_candidate (rating + resolution) resolution k := by
  unfold climb_candidate
  push_cast
  ring

theorem climb_eq_climb_spec (pow2 sum_fn : ℚ → ℚ)
    (hne : ∀ r : ℚ, sum_fn r ≠ pow2 (r * (1 / 10))) :
    ∀ (fuel : ℕ) (rating resolution : ℚ),
      climb pow2 sum_fn fuel rating resolution =
        climb_spec pow2 sum_fn fuel rating resolution := by
  intro fuel
  induction fuel with
  | zero => intro rating resolution; rfl
  | succ fuel ih =>
    intro rating resolution
    simp only [climb, climb_spec]
    have h := hne (rating + resolution)
    by_cases hc : sum_fn (rating + resolution) ≤ pow2 ((rating + resolution) * (1 / 10))
    · rw [if_pos hc, if_pos (lt_of_le_of_ne hc h)]
    · rw [if_neg hc, if_neg (fun hlt : sum_fn (rating + resolution) <
        pow2 ((rating + resolution) * (1 / 10)) => hc (le_of_lt hlt)), ih]

theorem climb_spec_finds_least (pow2 sum_fn : ℚ → ℚ) :
    ∀ (fuel : ℕ) (rating resolution : ℚ),
      (∃ j, j < fuel ∧ rating_okay pow2 sum_fn (climb_candidate rating resolution j)) →
      ∃ k, climb_spec pow2 sum_fn fuel rating resolution =
          climb_candidate rating resolution k ∧
        rating_okay pow2 sum_fn (climb_candidate rating resolution k) ∧
        ∀ j, j < k → ¬ rating_okay pow2 sum_fn (climb_candidate rating resolution j) := by
  intro fuel
  induction fuel with
  | zero =>
    intro rating resolution hex
    obtain ⟨j, hj, _⟩ := hex
    omega
  | succ fuel ih =>
    intro rating resolution hex
    simp only [climb_spec]
    by_cases hc : sum_fn (rating + resolution) < pow2 ((rating + resolution) * (1 / 10))
    · rw [if_pos hc]
      refine ⟨0, (climb_candidate_zero rating resolution).symm, ?_, ?_⟩
      · rw [rating_okay, climb_candidate_zero]
        exact hc
      · intro j hj
        omega
    · rw [if_neg hc]
      obtain ⟨j, hj, hok⟩ := hex
      have hj0 : j ≠ 0 := by
        rintro rfl
        rw [rating_okay, climb_candidate_zero] at hok
        exact hc hok
      obtain ⟨j', rfl⟩ : ∃ j', j = j' + 1 := ⟨j - 1, by omega⟩
      rw [climb_candidate_succ] at hok
      obtain ⟨k, h1, h2, h3⟩ := ih (rating + resolution) resolution ⟨j', by omega, hok⟩
      refine ⟨k + 1, ?_, ?_, ?_⟩
      · rw [climb_candidate_succ]
        exact h1
      · rw [climb_candidate_succ]
        exact h2
      · intro j hjk
        match j with
        | 0 =>
          rw [rating_okay, climb_candidate_zero]
          exact hc
        | Nat.succ j'' =>
          rw [climb_candidate_succ]
          exact h3 j'' (by omega)

/-- Claim C3: with the external transcendental kernels as parameters, the
skill-rating aggregation `aggregate_skill` follows the spec's coarse-to-fine
schedule: provided no visited sum ever lands exactly on the threshold
(where the source's non-strict break and the spec's strict inequality could
part ways), it equals the spec-worded procedure `calc_rating_spec` — start at
resolution 10.24, climb while the inequality `Σ < 2^(r·0.1)` is violated,
halve, repeat for 12 rounds, finally add two resolution-steps and apply the
result multiplier; moreover each climb of the spec procedure stops at the
smallest candidate rating satisfying the inequality. -/
theorem C3_aggregate_skill_schedule :
    (∀ (pow2 erfc_fn : ℚ → ℚ) (v : List ℚ)
        (delta_multiplier result_multiplier : ℚ) (fuel : ℕ),
      (∀ r : ℚ, power_sum erfc_fn delta_multiplier v r ≠ pow2 (r * (1 / 10))) →
      aggregate_skill pow2 erfc_fn v delta_multiplier result_multiplier fuel =
        calc_rating_spec pow2 erfc_fn v delta_multiplier result_multiplier fuel) ∧
    (∀ (pow2 sum_fn : ℚ → ℚ) (fuel : ℕ) (rating resolution : ℚ),
      (∃ j, j < fuel ∧ rating_okay pow2 sum_fn (climb_candidate rating resolution j)) →
      ∃ k, climb_spec pow2 sum_fn fuel rating resolution =
          climb_candidate rating resolution k ∧
        rating_okay pow2 sum_fn (climb_candidate rating resolution k) ∧
        ∀ j, j < k → ¬ rating_okay pow2 sum_fn (climb_candidate rating resolution j)) := by
  constructor
  · intro pow2 erfc_fn v dm rm fuel hne
    unfold aggregate_skill calc_rating_spec
    simp only [climb_eq_climb_spec pow2 (power_sum erfc_fn dm v) hne]
  · intro pow2 sum_fn fuel rating resolution hex
    exact climb_spec_finds_least pow2 sum_fn fuel rating resolution hex

/-- Constant-0 function, standing in for a power sum in concrete witnesses. -/
def qconst0 : ℚ → ℚ := fun _ => 0

/-- Witness for C3 at concrete kernel instantiations. -/
theorem C3_aggregate_skill_schedule_witness :
    (aggregate_skill qconst1 qconst2 [5] 1 1 3 =
      calc_rating_spec qconst1 qconst2 [5] 1 1 3) ∧
    (∃ k, climb_spec qconst1 qconst0 1 0 10 = climb_candidate 0 10 k ∧
      rating_okay qconst1 qconst0 (climb_candidate 0 10 k) ∧
      ∀ j, j < k → ¬ rating_okay qconst1 qconst0 (climb_candidate 0 10 j)) :=
  ⟨C3_aggregate_skill_schedule.1 qconst1 qconst2 [5] 1 1 3
      (by
        intro r
        simp [power_sum, qconst1, qconst2]),
    C3_aggregate_skill_schedule.2 qconst1 qconst0 1 0 10
      ⟨0, by omega, by
        rw [rating_okay, climb_candidate_zero]
        norm_num [qconst0, qconst1]⟩⟩

theorem enumFrom_map_sum_eq {M : Type} [AddCommMonoid M] :
    ∀ (l : List ℕ) (s : ℕ) (f : ℕ → ℕ → M),
      ((List.enumFrom s l).map (fun p => f p.1 p.2)).sum =
        (Finset.range l.length).sum (fun i => f (s + i) (l.getD i 0)) := by
  intro l
  induction l with
  | nil => intro s f; simp
  | cons a l ih =>
    intro s f
    rw [List.enumFrom_cons, List.map_cons, List.sum_cons, ih (s + 1) f,
      List.length_cons, Finset.sum_range_succ']
    have hcongr :
        (Finset.range l.length).sum (fun i => f (s + 1 + i) (l.getD i 0)) =
          (Finset.range l.length).sum
            (fun i => f (s + (i + 1)) ((a :: l).getD (i + 1) 0)) := by
      refine Finset.sum_congr rfl (fun i _ => ?_)
      rw [show s + 1 + i = s + (i + 1) by omega, List.getD_cons_succ]
    rw [hcongr]
    simp [add_comm]

theorem enum_map_sum_eq {M : Type} [AddCommMonoid M] (l : List ℕ) (f : ℕ → ℕ → M) :
    (l.enum.map (fun p => f p.1 p.2)).sum =
      (Finset.range l.length).sum (fun i => f i (l.getD i 0)) := by
  rw [show l.enum = List.enumFrom 0 l from rfl, enumFrom_map_sum_eq l 0 f]
  simp

/-- Counterexample to claim C4: on the histogram `[1,1,1,0,0]` with range 2
(values -2, -1, 0 once each), the code's truncating integer mean is `-1`,
not the claimed exact quotient `Σ(value·count)/(N-1) = -3/2`; consequently
the code's mean of squared differences is `1` while the claimed formulas give
`11/8`, so the returned standard deviation differs from the claimed one. -/
theorem C4_standard_deviation_counterexample :
    calculate_standard_deviation_sq [1, 1, 1, 0, 0] 2 = some 1 ∧
    standardDeviation_spec_sq [1, 1, 1, 0, 0] 2 = 11 / 8 ∧
    calculate_standard_deviation_sq [1, 1, 1, 0, 0] 2 ≠
      some (standardDeviation_spec_sq [1, 1, 1, 0, 0] 2) := by
  have henum : List.enum [1, 1, 1, 0, 0] = [(0, 1), (1, 1), (2, 1), (3, 0), (4, 0)] := rfl
  refine ⟨?_, ?_, ?_⟩
  · norm_num [calculate_standard_deviation_sq, henum,
      show Int.tdiv (-3) 2 = -1 from by decide]
  · norm_num [standardDeviation_spec_sq, henum]
  · norm_num [calculate_standard_deviation_sq, standardDeviation_spec_sq, henum,
      show Int.tdiv (-3) 2 = -1 from by decide]

/-- Claim C4 as amended: `calculate_standard_deviation` computes the weighted
mean as the **truncating integer** quotient of `Σ(value·count)` by `N-1`, the
variance as `Σ(count·(value-mean)²)/(N-1)` (both denominators Bessel-corrected)
and returns its square root; in particular
`standardDeviation([1,0,1], 1) ≈ 1.41421356` and
`standardDeviation([1,2,3,2,1], 2) ≈ 1.22474487` within `1e-6`. -/
theorem C4_standard_deviation_amended :
    (∀ (offset_buckets : List ℕ) (offset_bucket_range : ℕ),
      offset_buckets.length = 2 * offset_bucket_range + 1 →
      2 ≤ offset_buckets.sum →
      calculate_standard_deviation_sq offset_buckets offset_bucket_range =
        some ((((Finset.range offset_buckets.length).sum (fun i =>
            (offset_buckets.getD i 0 : ℤ) *
              ((i : ℤ) - offset_bucket_range -
                Int.tdiv
                  ((Finset.range offset_buckets.length).sum (fun j =>
                    ((j : ℤ) - offset_bucket_range) * (offset_buckets.getD j 0 : ℤ)))
                  ((offset_buckets.sum : ℤ) - 1)) ^ 2) : ℤ) : ℚ) /
          ((offset_buckets.sum : ℚ) - 1))) ∧
    (calculate_standard_deviation_sq [1, 0, 1] 1 = some 2 ∧
      |Real.sqrt 2 - 1.41421356| ≤ 1 / 1000000) ∧
    (calculate_standard_deviation_sq [1, 2, 3, 2, 1] 2 = some (3 / 2) ∧
      |Real.sqrt (3 / 2) - 1.22474487| ≤ 1 / 1000000) := by
  refine ⟨?_, ⟨?_, ?_⟩, ⟨?_, ?_⟩⟩
  · intro offset_buckets offset_bucket_range hlen hsum
    have hz : ¬offset_buckets.sum = 0 := by omega
    unfold calculate_standard_deviation_sq
    rw [if_neg (by omega)]
    simp only
    rw [if_neg hz, if_neg hz,
      if_neg (show ¬((offset_buckets.sum : ℤ) - 1 = 0) from by omega)]
    rw [enum_map_sum_eq offset_buckets
        (fun i c => ((i : ℤ) - offset_bucket_range) * (c : ℤ)),
      enum_map_sum_eq offset_buckets
        (fun i c => (c : ℤ) *
          ((i : ℤ) - offset_bucket_range -
            Int.tdiv
              ((Finset.range offset_buckets.length).sum (fun j =>
                ((j : ℤ) - offset_bucket_range) * (offset_buckets.getD j 0 : ℤ)))
              ((offset_buckets.sum : ℤ) - 1)) ^ 2)]
  · norm_num [calculate_standard_deviation_sq,
      show List.enum [1, 0, 1] = [(0, 1), (1, 0), (2, 1)] from rfl,
      show Int.tdiv 0 1 = 0 from by decide]
  · rw [abs_le]
    have h1 : Real.sqrt 2 ^ 2 = 2 := Real.sq_sqrt (by norm_num)
    have h2 : (0 : ℝ) ≤ Real.sqrt 2 := Real.sqrt_nonneg 2
    constructor <;> nlinarith [h1, h2]
  · norm_num [calculate_standard_deviation_sq,
      show List.enum [1, 2, 3, 2, 1] = [(0, 1), (1, 2), (2, 3), (3, 2), (4, 1)] from rfl,
      show Int.tdiv 0 8 = 0 from by decide]
  · rw [abs_le]
    have h1 : Real.sqrt (3 / 2) ^ 2 = 3 / 2 := Real.sq_sqrt (by norm_num)
    have h2 : (0 : ℝ) ≤ Real.sqrt (3 / 2) := Real.sqrt_nonneg (3 / 2)
    constructor <;> nlinarith [h1, h2]

/-- Witness for the universally quantified part of C4's amended claim, at the
first concrete histogram of the claim. -/
theorem C4_standard_deviation_amended_witness :
    calculate_standard_deviation_sq [1, 0, 1] 1 =
      some ((((Finset.range (3 : ℕ)).sum (fun i =>
          (([1, 0, 1].getD i 0 : ℤ)) *
            ((i : ℤ) - 1 -
              Int.tdiv
                ((Finset.range (3 : ℕ)).sum (fun j =>
                  ((j : ℤ) - 1) * (([1, 0, 1].getD j 0 : ℤ))))
                (((2 : ℕ) : ℤ) - 1)) ^ 2) : ℤ) : ℚ) /
        (((2 : ℕ) : ℚ) - 1)) := by
  have h := C4_standard_deviation_amended.1 [1, 0, 1] 1 rfl (by decide)
  simpa using h

/-- Counterexample to claim C9: in the shipped (release) build an empty
histogram does not make `calculate_standard_deviation` partial — the wrapped
`num_values - 1` flows through the mean as `-1` and through the final `f32`
division as `2^64`, and the function returns `0.0` — so the function is not
total *only* when the histogram holds at least two values. -/
theorem C9_standard_deviation_counterexample :
    calculate_standard_deviation_sq [0, 0, 0] 1 = some 0 := by
  norm_num [calculate_standard_deviation_sq,
    show List.enum [0, 0, 0] = [(0, 0), (1, 0), (2, 0)] from rfl,
    show Int.tdiv 0 (-1) = 0 from by decide]

/-- Claim C9 as amended: `calculate_standard_deviation` is partial only at
histograms holding exactly one value, where the integer mean divides by zero
(a panic in every build mode); with at least two values it returns a value;
and on an empty histogram the unsigned `N-1` subtraction underflows and wraps
in the shipped build, so the function returns 0 instead of panicking. -/
theorem C9_standard_deviation_partiality_amended :
    (∀ (offset_buckets : List ℕ) (offset_bucket_range : ℕ),
      offset_buckets.length = 2 * offset_bucket_range + 1 →
      2 ≤ offset_buckets.sum →
      (calculate_standard_deviation_sq offset_buckets offset_bucket_range).isSome) ∧
    (∀ (offset_buckets : List ℕ) (offset_bucket_range : ℕ),
      offset_buckets.sum = 1 →
      calculate_standard_deviation_sq offset_buckets offset_bucket_range = none) ∧
    (∀ (offset_buckets : List ℕ) (offset_bucket_range : ℕ),
      offset_buckets.length = 2 * offset_bucket_range + 1 →
      offset_buckets.sum = 0 →
      calculate_standard_deviation_sq offset_buckets offset_bucket_range = some 0) := by
  refine ⟨?_, ?_, ?_⟩
  · intro b r hlen hsum
    have hz : ¬b.sum = 0 := by omega
    simp only [calculate_standard_deviation_sq]
    rw [if_neg (by omega), if_neg hz,
      if_neg (show ¬((b.sum : ℤ) - 1 = 0) from by omega)]
    rfl
  · intro b r hsum
    simp only [calculate_standard_deviation_sq]
    by_cases h1 : b.length ≠ 2 * r + 1
    · rw [if_pos h1]
    · rw [if_neg h1, if_neg (show ¬b.sum = 0 from by omega),
        if_pos (show ((b.sum : ℤ) - 1 = 0) from by omega)]
  · intro b r hlen hb
    have hall : ∀ x ∈ b, x = 0 := List.sum_eq_zero_iff.mp hb
    simp only [calculate_standard_deviation_sq]
    rw [if_neg (by omega), if_pos hb, if_pos hb,
      if_neg (show ¬((-1 : ℤ) = 0) from by norm_num)]
    rw [Option.some_inj, div_eq_zero_iff]
    left
    rw [show ((0 : ℚ)) = ((0 : ℤ) : ℚ) from by norm_num, Int.cast_inj]
    apply List.sum_eq_zero
    intro x hx
    obtain ⟨p, hp, rfl⟩ := List.mem_map.mp hx
    rw [List.enum_eq_zip_range] at hp
    have hp2 : p.2 = 0 := hall p.2 (List.of_mem_zip hp).2
    rw [hp2]
    simp

/-- Witness for C9's amended claim at concrete histograms: two values, one
value, no value. -/
theorem C9_standard_deviation_partiality_amended_witness :
    (calculate_standard_deviation_sq [1, 0, 1] 1).isSome ∧
    calculate_standard_deviation_sq [1, 0, 0] 1 = none ∧
    calculate_standard_deviation_sq [0, 0, 0] 1 = some 0 :=
  ⟨C9_standard_deviation_partiality_amended.1 [1, 0, 1] 1 rfl (by decide),
    C9_standard_deviation_partiality_amended.2.1 [1, 0, 0] 1 (by decide),
    C9_standard_deviation_partiality_amended.2.2 [0, 0, 0] 1 rfl (by decide)⟩

theorem num_manipped_eq_card :
    ∀ l : List ℕ, num_manipped_notes l =
      ((Finset.range (l.length - 1)).filter
        (fun i => l.getD (i + 1) 0 < l.getD i 0)).card := by
  intro l
  induction l with
  | nil => rfl
  | cons a l ih =>
    cases l with
    | nil => rfl
    | cons b t =>
      rw [Finset.card_filter,
        show (a :: b :: t).length - 1 = t.length + 1 from by simp,
        Finset.sum_range_succ']
      have hterm : ∀ i ∈ Finset.range t.length,
          (if (a :: b :: t).getD (i + 1 + 1) 0 < (a :: b :: t).getD (i + 1) 0
            then (1 : ℕ) else 0) =
          (if (b :: t).getD (i + 1) 0 < (b :: t).getD i 0 then (1 : ℕ) else 0) := by
        intro i _
        rw [show (a :: b :: t).getD (i + 1 + 1) 0 = (b :: t).getD (i + 1) 0 from
            List.getD_cons_succ ..,
          show (a :: b :: t).getD (i + 1) 0 = (b :: t).getD i 0 from
            List.getD_cons_succ ..]
      rw [Finset.sum_congr rfl hterm,
        show (a :: b :: t).getD (0 + 1) 0 = b from rfl,
        show (a :: b :: t).getD 0 0 = a from rfl,
        show t.length = (b :: t).length - 1 from by simp,
        ← Finset.card_filter, ← ih]
      simp only [num_manipped_notes, List.tail_cons, List.zip_cons_cons, List.filter_cons]
      by_cases hab : b < a
      · simp [hab]
      · simp [hab]

/-- Claim C7: the manipulation ratio equals the number of adjacent positions
(in original, unsorted hit order) whose earlier tick exceeds the next tick,
divided by the total note count. -/
theorem C7_manipulation_ratio (unsorted_ticks : List ℕ) :
    score_manipulation unsorted_ticks =
      (((Finset.range (unsorted_ticks.length - 1)).filter
        (fun i => unsorted_ticks.getD (i + 1) 0 < unsorted_ticks.getD i 0)).card : ℚ) /
        (unsorted_ticks.length : ℚ) := by
  rw [score_manipulation, num_manipped_eq_card]

theorem bucket_step_length (acc : List ℕ) (d : ℚ) :
    (bucket_step acc d).length = acc.length := by
  simp only [bucket_step]
  split
  · exact List.length_set acc _ _
  · rfl

theorem bucket_fold_length :
    ∀ (ds : List ℚ) (acc : List ℕ), (ds.foldl bucket_step acc).length = acc.length := by
  intro ds
  induction ds with
  | nil => intro acc; rfl
  | cons d ds ih => intro acc; rw [List.foldl_cons, ih, bucket_step_length]

theorem bucket_step_getD (acc : List ℕ) (d : ℚ) (j : ℕ) (hj : j < acc.length) :
    (bucket_step acc d).getD j 0 =
      acc.getD j 0 + if rust_round (d * 1000) + 180 = (j : ℤ) then 1 else 0 := by
  simp only [bucket_step]
  by_cases heq : rust_round (d * 1000) + 180 = (j : ℤ)
  · rw [if_pos heq,
      if_pos (show 0 ≤ rust_round (d * 1000) + 180 ∧
        rust_round (d * 1000) + 180 < (acc.length : ℤ) from by
          constructor <;> omega)]
    have htn : (rust_round (d * 1000) + 180).toNat = j := by omega
    rw [htn]
    simp only [List.getD, List.get?_eq_getElem?, List.getElem?_set_self hj,
      Option.getD_some]
  · rw [if_neg heq, add_zero]
    split
    · next hcond =>
      have hne : (rust_round (d * 1000) + 180).toNat ≠ j := by omega
      simp only [List.getD, List.get?_eq_getElem?, List.getElem?_set_ne hne]
    · rfl

theorem bucket_fold_getD :
    ∀ (ds : List ℚ) (acc : List ℕ) (j : ℕ), j < acc.length →
      (ds.foldl bucket_step acc).getD j 0 =
        acc.getD j 0 + ds.countP (fun d => rust_round (d * 1000) + 180 = (j : ℤ)) := by
  intro ds
  induction ds with
  | nil => intro acc j hj; simp
  | cons d ds ih =>
    intro acc j hj
    rw [List.foldl_cons, ih _ j (by rw [bucket_step_length]; exact hj),
      bucket_step_getD acc d j hj, List.countP_cons]
    by_cases hpd : rust_round (d * 1000) + 180 = (j : ℤ)
    · simp [hpd]
      omega
    · simp [hpd]

/-- Claim C8: `put_deviations_into_buckets` returns a histogram of exactly 361
buckets, and bucket `j` counts exactly the deviations whose rounded
millisecond value offset by 180 equals `j`; deviations whose offset index
falls outside `[0, 360]` are counted nowhere. -/
theorem C8_bucketize (deviations : List ℚ) :
    (put_deviations_into_buckets deviations).length = 361 ∧
    ∀ j : ℕ, j < 361 →
      (put_deviations_into_buckets deviations).getD j 0 =
        deviations.countP (fun d => rust_round (d * 1000) + 180 = (j : ℤ)) := by
  constructor
  · rw [put_deviations_into_buckets, bucket_fold_length, List.length_replicate]
  · intro j hj
    rw [put_deviations_into_buckets,
      bucket_fold_getD deviations _ j (by rw [List.length_replicate]; exact hj)]
    have hrep : (List.replicate 361 (0 : ℕ)).getD j 0 = 0 := by
      simp only [List.getD, List.get?_eq_getElem?, List.getElem?_replicate]
      rw [if_pos hj]
      rfl
    rw [hrep, zero_add]

/-- Witness for C8's per-bucket count at a concrete deviation list. -/
theorem C8_bucketize_witness :
    (put_deviations_into_buckets [0]).getD 180 0 =
      List.countP (fun d => rust_round (d * 1000) + 180 = ((180 : ℕ) : ℤ)) [0] :=
  (C8_bucketize [0]).2 180 (by norm_num)

/-- Counterexample to claim C5: the readable two-field line `0 0.000000`
(a parseable tick and a parseable deviation but no column field) drives the
parser into `.expect("Missing tick token")` — a panic, not a silent skip —
so parsing is not tolerant of every readable input. -/
theorem C5_parse_counterexample :
    parse_replay_file ("0 0.000000".toList) = none := by rfl

theorem parse_line_skip_tick (c : Char) (l : List Char) (hc : ¬c = 'H')
    (hbtou : btou (breakSpace (c :: l)).1 = none) :
    parse_line (c :: l) = LineResult.skip := by
  simp only [parse_line]
  rw [if_neg hc, hbtou]

theorem parse_line_skip_deviation (c : Char) (l : List Char) (r1 : List Char) (tick : ℕ)
    (hc : ¬c = 'H')
    (hbtou : btou (breakSpace (c :: l)).1 = some tick)
    (hr1 : (breakSpace (c :: l)).2 = some r1)
    (hfl : parse_sm_float (breakSpace r1).1 = none) :
    parse_line (c :: l) = LineResult.skip := by
  simp only [parse_line]
  rw [if_neg hc]
  simp only [hbtou, hr1, hfl]

theorem parse_lines_cons_skip (line : List Char) (rest : List (List Char))
    (h : parse_line line = LineResult.skip) :
    parse_lines (line :: rest) = parse_lines rest := by
  cases line with
  | nil => rfl
  | cons c l =>
    simp only [parse_lines, h]

theorem parse_line_no_panic (line : List Char) (h : line_well_formed line) :
    parse_line line ≠ LineResult.panic := by
  cases line with
  | nil => simp [parse_line]
  | cons c l =>
    simp only [parse_line]
    by_cases hc : c = 'H'
    · simp [hc]
    · rw [if_neg hc]
      rcases h with h | h | ⟨r1, r2, h1, h2, hr2⟩
      · exact absurd h (by simp)
      · rw [List.head?_cons, Option.some_inj] at h
        exact absurd h hc
      · cases hbtou : btou (breakSpace (c :: l)).1 with
        | none => simp
        | some tick =>
          simp only [h1]
          cases hfl : parse_sm_float (breakSpace r1).1 with
          | none => simp
          | some dv =>
            simp only [hfl, h2]
            cases r2 with
            | nil => exact absurd rfl hr2
            | cons c0 r2t =>
              split_ifs <;> simp

theorem parse_lines_isSome (lines : List (List Char))
    (h : ∀ l ∈ lines, line_well_formed l) : (parse_lines lines).isSome := by
  induction lines with
  | nil => rfl
  | cons line rest ih =>
    have hline := parse_line_no_panic line (h line (List.mem_cons_self line rest))
    have hrest := ih (fun l hl => h l (List.mem_cons_of_mem line hl))
    cases line with
    | nil => exact hrest
    | cons c l =>
      simp only [parse_lines]
      cases hpl : parse_line (c :: l) with
      | panic => exact absurd hpl hline
      | skip => exact hrest
      | ignored => exact hrest
      | holdDrop => simpa using hrest
      | mineHit => simpa using hrest
      | note tick deviation column => simpa using hrest

/-- Claim C5 as amended: a nonempty non-hold line whose tick field fails to
parse, or whose (present) deviation field fails to parse, is silently skipped
and parsing continues with the remaining lines; and the parse succeeds on
every readable file all of whose lines are empty, hold-drop markers, or carry
three space-separated fields with a non-empty remainder — but not on every
readable file, because a line with fewer fields panics
(`C5_parse_counterexample`). -/
theorem C5_parse_tolerance_amended :
    (∀ (c : Char) (l : List Char) (rest : List (List Char)), ¬c = 'H' →
      btou (breakSpace (c :: l)).1 = none →
      parse_lines ((c :: l) :: rest) = parse_lines rest) ∧
    (∀ (c : Char) (l r1 : List Char) (tick : ℕ) (rest : List (List Char)), ¬c = 'H' →
      btou (breakSpace (c :: l)).1 = some tick →
      (breakSpace (c :: l)).2 = some r1 →
      parse_sm_float (breakSpace r1).1 = none →
      parse_lines ((c :: l) :: rest) = parse_lines rest) ∧
    (∀ lines : List (List Char), (∀ l ∈ lines, line_well_formed l) →
      (parse_lines lines).isSome) := by
  refine ⟨?_, ?_, ?_⟩
  · intro c l rest hc hbtou
    exact parse_lines_cons_skip _ _ (parse_line_skip_tick c l hc hbtou)
  · intro c l r1 tick rest hc hbtou hr1 hfl
    exact parse_lines_cons_skip _ _ (parse_line_skip_deviation c l r1 tick hc hbtou hr1 hfl)
  · intro lines h
    exact parse_lines_isSome lines h

/-- Witness for C5's amended claim at concrete lines: an unparseable tick, an
unparseable deviation, and a well-formed file. -/
theorem C5_parse_tolerance_amended_witness :
    (parse_lines [['x', ' ', '1'], ['H']] = parse_lines [['H']]) ∧
    (parse_lines [['1', ' ', 'y', ' ', '1']] = parse_lines []) ∧
    (parse_lines [['1', ' ', '0', ' ', '1']]).isSome :=
  ⟨C5_parse_tolerance_amended.1 'x' [' ', '1'] [['H']] (by decide) (by rfl),
    C5_parse_tolerance_amended.2.1 '1' [' ', 'y', ' ', '1'] ['y', ' ', '1'] 1 []
      (by decide) (by rfl) (by rfl) (by rfl),
    C5_parse_tolerance_amended.2.2 [['1', ' ', '0', ' ', '1']]
      (by
        intro l hl
        rw [List.mem_singleton] at hl
        subst hl
        right
        right
        exact ⟨['0', ' ', '1'], ['1'], rfl, rfl, by decide⟩)⟩

theorem reduce_step_score_indices (st : ReduceState) (i : ℕ)
    (e : Option (String × ScoreAnalysis × ℚ)) :
    (reduce_step st (i, e)).analysis.score_indices =
      (match e with
      | none => st.analysis.score_indices
      | some _ => st.analysis.score_indices ++ [i]) := by
  cases e with
  | none => rfl
  | some t =>
    obtain ⟨sk, sc, ws⟩ := t
    obtain ⟨m, dm, ndn, npc, cpc, lm, ob, w2, tia⟩ := sc
    cases tia with
    | none =>
      simp only [reduce_step]
      split_ifs <;> rfl
    | some tia =>
      simp only [reduce_step]
      split_ifs <;> rfl

theorem reduce_step_manipulations (st : ReduceState) (i : ℕ)
    (e : Option (String × ScoreAnalysis × ℚ)) :
    (reduce_step st (i, e)).analysis.manipulations.length =
      (match e with
      | none => st.analysis.manipulations.length
      | some _ => st.analysis.manipulations.length + 1) := by
  cases e with
  | none => rfl
  | some t =>
    obtain ⟨sk, sc, ws⟩ := t
    obtain ⟨m, dm, ndn, npc, cpc, lm, ob, w2, tia⟩ := sc
    cases tia with
    | none =>
      simp only [reduce_step]
      split_ifs <;> simp
    | some tia =>
      simp only [reduce_step]
      split_ifs <;> simp

theorem reduce_step_wife2 (st : ReduceState) (i : ℕ)
    (e : Option (String × ScoreAnalysis × ℚ)) :
    (reduce_step st (i, e)).analysis.wife2_wifescores.length =
      (match e with
      | none => st.analysis.wife2_wifescores.length
      | some _ => st.analysis.wife2_wifescores.length + 1) := by
  cases e with
  | none => rfl
  | some t =>
    obtain ⟨sk, sc, ws⟩ := t
    obtain ⟨m, dm, ndn, npc, cpc, lm, ob, w2, tia⟩ := sc
    cases tia with
    | none =>
      simp only [reduce_step]
      split_ifs <;> simp
    | some tia =>
      simp only [reduce_step]
      split_ifs <;> simp

/-- The invariant maintained by the reduction loop of
`ReplaysAnalysis::create`, for a loop about to process original index `k`. -/
def reduce_invariant (st : ReduceState) (k : ℕ) : Prop :=
  st.analysis.manipulations.length = st.analysis.score_indices.length ∧
  st.analysis.wife2_wifescores.length = st.analysis.score_indices.length ∧
  List.Chain' (· < ·) st.analysis.score_indices ∧
  ∀ x ∈ st.analysis.score_indices, x < k

theorem reduce_step_invariant (st : ReduceState) (k : ℕ)
    (e : Option (String × ScoreAnalysis × ℚ)) (h : reduce_invariant st k) :
    reduce_invariant (reduce_step st (k, e)) (k + 1) := by
  obtain ⟨h1, h2, h3, h4⟩ := h
  refine ⟨?_, ?_, ?_, ?_⟩
  · rw [reduce_step_manipulations, reduce_step_score_indices]
    cases e <;> simp [h1]
  · rw [reduce_step_wife2, reduce_step_score_indices]
    cases e <;> simp [h2]
  · rw [reduce_step_score_indices]
    cases e with
    | none => exact h3
    | some t =>
      rw [List.chain'_append]
      refine ⟨h3, List.chain'_singleton k, ?_⟩
      intro x hx y hy
      rw [List.head?_cons, Option.mem_def, Option.some_inj] at hy
      subst hy
      exact h4 x (List.mem_of_mem_getLast? hx)
  · rw [reduce_step_score_indices]
    cases e with
    | none => exact fun x hx => Nat.lt_succ_of_lt (h4 x hx)
    | some t =>
      intro x hx
      rcases List.mem_append.mp hx with hx | hx
      · exact Nat.lt_succ_of_lt (h4 x hx)
      · rw [List.mem_singleton] at hx
        omega

theorem reduce_fold_invariant :
    ∀ (l : List (Option (String × ScoreAnalysis × ℚ))) (k : ℕ) (st : ReduceState),
      reduce_invariant st k →
      reduce_invariant ((List.enumFrom k l).foldl reduce_step st) (k + l.length) := by
  intro l
  induction l with
  | nil => intro k st h; simpa using h
  | cons e l ih =>
    intro k st h
    rw [List.enumFrom_cons, List.foldl_cons,
      List.length_cons, show k + (l.length + 1) = (k + 1) + l.length from by omega]
    exact ih (k + 1) (reduce_step st (k, e)) (reduce_step_invariant st k e h)

/-- Claim C6: in every batch report, `score_indices`, `manipulations` and
`wife2_wifescores` have the same length, and `score_indices` is strictly
increasing with every value in `[0, batchSize)` where `batchSize` is the
number of per-score outcomes. -/
theorem C6_batch_report_invariants
    (score_analyses : List (Option (String × ScoreAnalysis × ℚ))) :
    (ReplaysAnalysis.create score_analyses).manipulations.length =
      (ReplaysAnalysis.create score_analyses).score_indices.length ∧
    (ReplaysAnalysis.create score_analyses).wife2_wifescores.length =
      (ReplaysAnalysis.create score_analyses).score_indices.length ∧
    List.Chain' (· < ·) (ReplaysAnalysis.create score_analyses).score_indices ∧
    ∀ x ∈ (ReplaysAnalysis.create score_analyses).score_indices,
      x < score_analyses.length := by
  have h0 : reduce_invariant
      { analysis :=
          { ReplaysAnalysis.empty with
            offset_buckets := List.replicate 361 0,
            sub_93_offset_buckets := List.replicate 361 0 },
        deviation_mean_sum := 0, longest_mcombo := 0,
        longest_mcombo_scorekey := "<no chart>" } 0 :=
    ⟨rfl, rfl, List.chain'_nil, fun x hx => absurd hx (List.not_mem_nil x)⟩
  have h := reduce_fold_invariant score_analyses 0 _ h0
  rw [Nat.zero_add] at h
  exact h

theorem reduce_step_longest_zero (st : ReduceState) (i : ℕ)
    (e : Option (String × ScoreAnalysis × ℚ))
    (hz : entry_mcombo_zero e = true) (h0 : st.longest_mcombo = 0) :
    (reduce_step st (i, e)).longest_mcombo = 0 ∧
    (reduce_step st (i, e)).longest_mcombo_scorekey = st.longest_mcombo_scorekey := by
  cases e with
  | none => exact ⟨h0, rfl⟩
  | some t =>
    obtain ⟨sk, sc, ws⟩ := t
    have hsc : sc.longest_mcombo = 0 := by
      simpa [entry_mcombo_zero] using hz
    obtain ⟨m, dm, ndn, npc, cpc, lm, ob, w2, tia⟩ := sc
    simp only [ScoreAnalysis.longest_mcombo] at hsc
    subst hsc
    cases tia with
    | none =>
      simp only [reduce_step]
      rw [if_neg (by simp [h0])]
      exact ⟨h0, rfl⟩
    | some tia =>
      simp only [reduce_step]
      rw [if_neg (by simp [h0])]
      split_ifs <;> exact ⟨h0, rfl⟩

theorem reduce_fold_longest_zero :
    ∀ (l : List (Option (String × ScoreAnalysis × ℚ))) (k : ℕ) (st : ReduceState),
      (∀ e ∈ l, entry_mcombo_zero e = true) → st.longest_mcombo = 0 →
      ((List.enumFrom k l).foldl reduce_step st).longest_mcombo = 0 ∧
      ((List.enumFrom k l).foldl reduce_step st).longest_mcombo_scorekey =
        st.longest_mcombo_scorekey := by
  intro l
  induction l with
  | nil => intro k st _ h0; exact ⟨h0, rfl⟩
  | cons e l ih =>
    intro k st hz h0
    rw [List.enumFrom_cons, List.foldl_cons]
    have hstep := reduce_step_longest_zero st k e (hz e (List.mem_cons_self e l)) h0
    have hrest := ih (k + 1) (reduce_step st (k, e))
      (fun x hx => hz x (List.mem_cons_of_mem e hx)) hstep.1
    exact ⟨hrest.1, hrest.2.trans hstep.2⟩

/-- Claim C10: the batch report's longest-marvelous-combo field starts as
`(0, "<no chart>")`, and whenever no successful score has a longest marvelous
combo strictly greater than 0 (in particular when no score succeeds at all)
the sentinel pair is returned unchanged, because the running maximum is only
replaced under a strict `>` comparison starting from 0. -/
theorem C10_longest_mcombo_sentinel
    (score_analyses : List (Option (String × ScoreAnalysis × ℚ)))
    (h : ∀ e ∈ score_analyses, entry_mcombo_zero e = true) :
    (ReplaysAnalysis.create score_analyses).longest_mcombo = (0, "<no chart>") := by
  have hfold := reduce_fold_longest_zero score_analyses 0
    { analysis :=
        { ReplaysAnalysis.empty with
          offset_buckets := List.replicate 361 0,
          sub_93_offset_buckets := List.replicate 361 0 },
      deviation_mean_sum := 0, longest_mcombo := 0,
      longest_mcombo_scorekey := "<no chart>" } h rfl
  simp only [ReplaysAnalysis.create]
  rw [Prod.ext_iff]
  exact ⟨hfold.1, hfold.2⟩

/-- Witness for C10: a batch of one skipped score and one successful score
whose longest marvelous combo is zero keeps the sentinel. -/
theorem C10_longest_mcombo_sentinel_witness :
    (ReplaysAnalysis.create [none, some ("k", sample_score, 1 / 2)]).longest_mcombo =
      (0, "<no chart>") :=
  C10_longest_mcombo_sentinel [none, some ("k", sample_score, 1 / 2)] (by
    intro e he
    rcases List.mem_cons.mp he with h | h
    · subst h; rfl
    · rw [List.mem_singleton] at h
      subst h
      rfl)
